import Mathlib

/-!
Shallow embedding of the dependency-audit and commit-history pipeline of the
git-bro command line tool.

The source is JavaScript.  Pure computations (version normalisation, commit
classification, manifest parsing, filtering, batching) are translated into
executable Lean functions; the network is modelled by an explicit environment
record of oracles (`Env`): one oracle per remote endpoint, each returning
`Except` to model a resolved or rejected request.  External library calls
(node-semver `coerce`/`lt`, `JSON.parse`, `String.prototype` methods) are
modelled by small executable Lean functions that follow their documented
behaviour on the inputs this program feeds them.
-/

namespace GitBro

/-- JS string `toLowerCase` restricted to the ASCII range (all keywords the
program compares against are ASCII). -/
def lowerStr (s : String) : String :=
  ⟨s.toList.map Char.toLower⟩

/-- JS `String.prototype.startsWith`. -/
def startsWithStr (s pre : String) : Bool :=
  pre.toList.isPrefixOf s.toList

/-- Segment (contiguous sublist) membership test, used to model JS
`String.prototype.includes`. -/
def segIn (pat : List Char) : List Char → Bool
  | [] => pat.isEmpty
  | c :: rest => pat.isPrefixOf (c :: rest) || segIn pat rest

/-- JS `String.prototype.includes`. -/
def hasSub (s pat : String) : Bool :=
  segIn pat.toList s.toList

/-- JS object assignment `o[k] = v`: updating an existing key keeps its
position, a fresh key is appended (string-keyed insertion order). -/
def jsObjInsert (l : List (String × α)) (k : String) (v : α) : List (String × α) :=
  if l.any (fun p => p.1 == k) then
    l.map (fun p => if p.1 == k then (k, v) else p)
  else l ++ [(k, v)]

/-- JS `String.prototype.split` on a single character: every separator
occurrence splits, empty pieces are kept, the empty string yields one empty
piece. -/
def splitLines : List Char → List (List Char)
  | [] => [[]]
  | c :: cs =>
    match splitLines cs with
    | [] => [[]]
    | line :: rest => if c == '\n' then [] :: line :: rest else (c :: line) :: rest

/-- JS `String.prototype.trim` (whitespace removed from both ends),
on character lists. -/
def jsTrimL (l : List Char) : List Char :=
  ((l.dropWhile Char.isWhitespace).reverse.dropWhile Char.isWhitespace).reverse

/-!
## Version resolver arithmetic (source: fetchLatestVersions)

`currentVersion = dependencies[pkg].replace(/[^0-9.]/g, "")` and
`isOutdated = semver.lt(semver.coerce(currentVersion) || "0.0.0",
                        semver.coerce(latestVersion) || "0.0.0")`.
-/

/-- `replace(/[^0-9.]/g, "")`: keep only ASCII digits and dots. -/
def stripVersion (s : String) : String :=
  ⟨s.toList.filter (fun c => c.isDigit || c == '.')⟩

/-- Decimal value of a digit run. -/
def natOfDigits (l : List Char) : Nat :=
  l.foldl (fun n c => n * 10 + (c.toNat - 48)) 0

/-- Model of node-semver `coerce`: the first run of digits (necessarily
preceded by the start of the string or a non-digit) becomes the major
component, followed by an optional `.minor` and `.patch` digit run; missing
components are zero; a string with no digit yields `none`.  (The 16-digit
upper bound of the library regex is not modelled; version strings this
program handles are far shorter.) -/
def coerceChars (l : List Char) : Option (Nat × Nat × Nat) :=
  match l.dropWhile (fun c => !c.isDigit) with
  | [] => none
  | rest =>
    let major := natOfDigits (rest.takeWhile Char.isDigit)
    match rest.dropWhile Char.isDigit with
    | '.' :: r2 =>
      let d2 := r2.takeWhile Char.isDigit
      if d2.isEmpty then some (major, 0, 0)
      else
        match r2.dropWhile Char.isDigit with
        | '.' :: r4 =>
          let d3 := r4.takeWhile Char.isDigit
          if d3.isEmpty then some (major, natOfDigits d2, 0)
          else some (major, natOfDigits d2, natOfDigits d3)
        | _ => some (major, natOfDigits d2, 0)
    | _ => some (major, 0, 0)

/-- node-semver `lt` on coerced versions (coerced versions never carry a
prerelease tag, so the order is lexicographic on the numeric triple). -/
def semverLtV : Nat × Nat × Nat → Nat × Nat × Nat → Bool
  | (a1, b1, c1), (a2, b2, c2) =>
    decide (a1 < a2) || (a1 == a2 && (decide (b1 < b2) || (b1 == b2 && decide (c1 < c2))))

/-- `semver.coerce(s) || "0.0.0"`. -/
def coerceOrZero (s : String) : Nat × Nat × Nat :=
  (coerceChars s.toList).getD (0, 0, 0)

/-- The `isOutdated` computation of `fetchLatestVersions`: the declared
version is stripped to digits and dots, both sides are coerced with a
`0.0.0` fallback, and the results compared with `semver.lt`. -/
def computeIsOutdated (declared latest : String) : Bool :=
  semverLtV (coerceOrZero (stripVersion declared)) (coerceOrZero latest)

/-!
## Commit classification (source: formatCommits)
-/

inductive CommitType
  | feature | bugfix | docs | refactor | test | merge | other
deriving DecidableEq

/-- The classification cascade of `formatCommits`, applied to the first line
of the commit message (already extracted), lower-cased. -/
def classifyLine (line : String) : CommitType :=
  let msg := lowerStr line
  if startsWithStr msg "feat" || hasSub msg "feature" then CommitType.feature
  else if startsWithStr msg "fix" || hasSub msg "bug" then CommitType.bugfix
  else if startsWithStr msg "docs" || hasSub msg "documentation" then CommitType.docs
  else if startsWithStr msg "refactor" then CommitType.refactor
  else if startsWithStr msg "test" then CommitType.test
  else if hasSub msg "merge" then CommitType.merge
  else CommitType.other

/-- `message.split('\n')[0]`. -/
def firstLineOf (message : String) : String :=
  ⟨(splitLines message.toList).headD []⟩

/-- Commit type as computed by `formatCommits`: classification of the first
line of the commit message. -/
def commitTypeOf (message : String) : CommitType :=
  classifyLine (firstLineOf message)

/-- The classification rules as an explicit ordered list: predicate on the
lower-cased first line, paired with the resulting type. -/
def commitTypeRules : List ((String → Bool) × CommitType) :=
  [ (fun m => startsWithStr m "feat" || hasSub m "feature", CommitType.feature),
    (fun m => startsWithStr m "fix" || hasSub m "bug", CommitType.bugfix),
    (fun m => startsWithStr m "docs" || hasSub m "documentation", CommitType.docs),
    (fun m => startsWithStr m "refactor", CommitType.refactor),
    (fun m => startsWithStr m "test", CommitType.test),
    (fun m => hasSub m "merge", CommitType.merge) ]

/-- First-matching-rule semantics over an ordered rule list; no rule
matching yields `other`. -/
def firstMatchType : List ((String → Bool) × CommitType) → String → CommitType
  | [], _ => CommitType.other
  | r :: rs, m => if r.1 m then r.2 else firstMatchType rs m

theorem semverLtV_zero (v : Nat × Nat × Nat) : semverLtV v (0, 0, 0) = false := by
  rcases v with ⟨a, b, c⟩
  simp [semverLtV]

/-- Claim C1 (counterexample): for the declared version "latest" (which
strips to the empty string, hence fails to coerce to a semantic version) and
registry latest "1.0.0", the code computes `isOutdated = true`, whereas the
claim requires `isOutdated = false` whenever the stripped declared version
does not parse. -/
theorem c1_counterexample :
    coerceChars (stripVersion "latest").toList = none ∧
    computeIsOutdated "latest" "1.0.0" = true := by
  constructor <;> decide

/-- Claim C1 (amended): `isOutdated` is the semver comparison of the coerced
stripped declared version against the coerced latest version, each side
defaulting to `0.0.0` when coercion fails, and the computation is a total
function (never throws).  Consequently an uncoercible latest version yields
`false`, both sides coercible yields exactly the semver strict order, and an
uncoercible declared version yields `true` exactly when the latest coerces
strictly above `0.0.0`. -/
theorem c1_outdated_amended (declared latest : String) :
    (coerceChars latest.toList = none → computeIsOutdated declared latest = false) ∧
    (∀ vd vl, coerceChars (stripVersion declared).toList = some vd →
      coerceChars latest.toList = some vl →
      (computeIsOutdated declared latest = semverLtV vd vl)) ∧
    (∀ vl, coerceChars (stripVersion declared).toList = none →
      coerceChars latest.toList = some vl →
      (computeIsOutdated declared latest = semverLtV (0, 0, 0) vl)) := by
  refine ⟨fun h => ?_, fun vd vl hd hl => ?_, fun vl hd hl => ?_⟩
  · simp only [computeIsOutdated, coerceOrZero, String.toList] at h ⊢
    rw [h]
    exact semverLtV_zero _
  · simp only [computeIsOutdated, coerceOrZero, String.toList] at hd hl ⊢
    rw [hd, hl]
    rfl
  · simp only [computeIsOutdated, coerceOrZero, String.toList] at hd hl ⊢
    rw [hd, hl]
    rfl

theorem c1_outdated_amended_witness :
    computeIsOutdated "^1.0.0" "unknown" = false ∧
    computeIsOutdated "^1.0.0" "1.2.0" = semverLtV (1, 0, 0) (1, 2, 0) ∧
    computeIsOutdated "latest" "1.2.0" = semverLtV (0, 0, 0) (1, 2, 0) :=
  ⟨(c1_outdated_amended "^1.0.0" "unknown").1 (by decide),
   (c1_outdated_amended "^1.0.0" "1.2.0").2.1 (1, 0, 0) (1, 2, 0) (by decide) (by decide),
   (c1_outdated_amended "latest" "1.2.0").2.2 (1, 2, 0) (by decide) (by decide)⟩

/-- Claim C4: commit classification is a deterministic total function of the
commit message's first line (it is a Lean function of exactly that line); it
agrees with first-matching-rule evaluation of the explicit ordered precedence
list feat/feature, fix/bug, docs/documentation, refactor, test, merge, with
`other` as the default; every message maps into the seven listed types; and
the message "fix: null pointer in parser" classifies as `bugfix`. -/
theorem c4_commit_classification :
    (∀ message, commitTypeOf message =
      firstMatchType commitTypeRules (lowerStr (firstLineOf message))) ∧
    commitTypeOf "fix: null pointer in parser" = CommitType.bugfix ∧
    (∀ message, commitTypeOf message ∈
      [CommitType.feature, CommitType.bugfix, CommitType.docs, CommitType.refactor,
       CommitType.test, CommitType.merge, CommitType.other]) := by
  refine ⟨fun m => rfl, by decide, fun m => ?_⟩
  cases h : commitTypeOf m <;> simp

/-!
## Pinned-list manifest parser (source: parseRequirementsTxt)
-/

/-- Character class `[a-zA-Z0-9_.-]` of the line regex. -/
def nameChar (c : Char) : Bool :=
  c.isAlpha || c.isDigit || c == '_' || c == '.' || c == '-'

/-- Character class `[=<>!~]` of the line regex. -/
def opChar (c : Char) : Bool :=
  c == '=' || c == '<' || c == '>' || c == '!' || c == '~'

/-- The line regex `^([a-zA-Z0-9_.-]+)([=<>!~]+)([a-zA-Z0-9_.-]+)`: the three
character classes are pairwise disjoint where it matters, so the greedy match
is the maximal-run parse: a nonempty run of name characters, a nonempty run
of operator characters, a nonempty run of name characters; the rest of the
line is ignored. -/
def matchReqLine (l : List Char) : Option (String × String) :=
  if (l.takeWhile nameChar).isEmpty then none
  else if ((l.dropWhile nameChar).takeWhile opChar).isEmpty then none
  else if (((l.dropWhile nameChar).dropWhile opChar).takeWhile nameChar).isEmpty then none
  else some (⟨l.takeWhile nameChar⟩, ⟨((l.dropWhile nameChar).dropWhile opChar).takeWhile nameChar⟩)

/-- `line.trim() === "" || line.trim().startsWith("#")`. -/
def skipReqLine (line : List Char) : Bool :=
  (jsTrimL line).isEmpty || (jsTrimL line).head? == some '#'

/-- One iteration of the `lines.forEach` body of `parseRequirementsTxt`. -/
def reqStep (deps : List (String × String)) (line : List Char) : List (String × String) :=
  if skipReqLine line then deps
  else
    match matchReqLine line with
    | some (n, v) => jsObjInsert deps n v
    | none =>
      let p := jsTrimL line
      if p.isEmpty then deps else jsObjInsert deps ⟨p⟩ "latest"

def parseReqLines (lines : List (List Char)) : List (String × String) :=
  lines.foldl reqStep []

/-- `parseRequirementsTxt` (the `dependencies` object it returns). -/
def parseRequirementsTxt (content : String) : List (String × String) :=
  parseReqLines (splitLines content.toList)

theorem takeWhile_append_all {α : Type} (p : α → Bool) (l1 l2 : List α)
    (h : ∀ c ∈ l1, p c = true) :
    (l1 ++ l2).takeWhile p = l1 ++ l2.takeWhile p := by
  induction l1 with
  | nil => simp
  | cons c cs ih =>
    simp only [List.cons_append, List.takeWhile_cons, h c (by simp)]
    rw [ih (fun x hx => h x (by simp [hx]))]
    simp

theorem dropWhile_append_all {α : Type} (p : α → Bool) (l1 l2 : List α)
    (h : ∀ c ∈ l1, p c = true) :
    (l1 ++ l2).dropWhile p = l2.dropWhile p := by
  induction l1 with
  | nil => simp
  | cons c cs ih =>
    simp only [List.cons_append, List.dropWhile_cons, h c (by simp)]
    exact ih (fun x hx => h x (by simp [hx]))

theorem takeWhile_all {α : Type} (p : α → Bool) (l : List α)
    (h : ∀ c ∈ l, p c = true) : l.takeWhile p = l := by
  have := takeWhile_append_all p l [] h
  simpa using this

theorem takeWhile_head_neg {α : Type} (p : α → Bool) (c : α) (l : List α)
    (h : p c = false) : (c :: l).takeWhile p = [] := by
  simp [List.takeWhile_cons, h]

theorem dropWhile_head_neg {α : Type} (p : α → Bool) (c : α) (l : List α)
    (h : p c = false) : (c :: l).dropWhile p = c :: l := by
  simp [List.dropWhile_cons, h]

theorem dropWhile_all_neg {α : Type} (p : α → Bool) (l : List α)
    (h : ∀ c ∈ l, p c = false) : l.dropWhile p = l := by
  cases l with
  | nil => rfl
  | cons c cs => exact dropWhile_head_neg p c cs (h c (by simp))

/-- A list with no whitespace character is untouched by trimming. -/
theorem jsTrimL_all_not_ws (l : List Char)
    (h : ∀ c ∈ l, c.isWhitespace = false) : jsTrimL l = l := by
  unfold jsTrimL
  rw [dropWhile_all_neg _ l h,
      dropWhile_all_neg _ l.reverse (fun c hc => h c (List.mem_reverse.mp hc)),
      List.reverse_reverse]

theorem ws_char_cases {c : Char} (h : c.isWhitespace = true) :
    c = ' ' ∨ c = '\t' ∨ c = '\r' ∨ c = '\n' := by
  revert h
  simp only [Char.isWhitespace, Bool.or_eq_true, decide_eq_true_eq]
  intro h
  tauto

theorem nameChar_not_ws {c : Char} (h : nameChar c = true) : c.isWhitespace = false := by
  cases hw : c.isWhitespace with
  | false => rfl
  | true =>
    rcases ws_char_cases hw with h1 | h1 | h1 | h1 <;> subst h1 <;> exact absurd h (by decide)

theorem opChar_not_ws {c : Char} (h : opChar c = true) : c.isWhitespace = false := by
  cases hw : c.isWhitespace with
  | false => rfl
  | true =>
    rcases ws_char_cases hw with h1 | h1 | h1 | h1 <;> subst h1 <;> exact absurd h (by decide)

theorem opChar_cases {c : Char} (h : opChar c = true) :
    c = '=' ∨ c = '<' ∨ c = '>' ∨ c = '!' ∨ c = '~' := by
  revert h
  simp only [opChar, Bool.or_eq_true, beq_iff_eq]
  intro h
  tauto

theorem nameChar_of_opChar_false {c : Char} (h : opChar c = true) : nameChar c = false := by
  rcases opChar_cases h with h1 | h1 | h1 | h1 | h1 <;> subst h1 <;> decide

theorem opChar_of_nameChar_false {c : Char} (h : nameChar c = true) : opChar c = false := by
  cases hx : opChar c with
  | false => rfl
  | true => rw [nameChar_of_opChar_false hx] at h; exact absurd h (by simp)

theorem nameChar_ne_hash {c : Char} (h : nameChar c = true) : c ≠ '#' := by
  intro he
  subst he
  exact absurd h (by decide)

theorem nameChar_ne_newline {c : Char} (h : nameChar c = true) : (c == '\n') = false := by
  cases hw : c == '\n' with
  | false => rfl
  | true =>
    have : c = '\n' := by simpa using hw
    subst this
    exact absurd h (by decide)

theorem opChar_ne_newline {c : Char} (h : opChar c = true) : (c == '\n') = false := by
  rcases opChar_cases h with h1 | h1 | h1 | h1 | h1 <;> subst h1 <;> decide

theorem splitLines_no_newline (l : List Char)
    (h : ∀ c ∈ l, (c == '\n') = false) : splitLines l = [l] := by
  induction l with
  | nil => rfl
  | cons c cs ih =>
    simp only [splitLines]
    rw [ih (fun x hx => h x (by simp [hx]))]
    simp [h c (by simp)]

/-- The regex match on a well-formed `name operator version` line. -/
theorem matchReqLine_concat (n op v : List Char)
    (hn : n ≠ [] ∧ ∀ c ∈ n, nameChar c = true)
    (hop : op ≠ [] ∧ ∀ c ∈ op, opChar c = true)
    (hv : v ≠ [] ∧ ∀ c ∈ v, nameChar c = true) :
    matchReqLine (n ++ op ++ v) = some (⟨n⟩, ⟨v⟩) := by
  obtain ⟨o, os, rfl⟩ : ∃ o os, op = o :: os := by
    cases op with
    | nil => exact absurd rfl hop.1
    | cons o os => exact ⟨o, os, rfl⟩
  obtain ⟨w, ws', rfl⟩ : ∃ w ws', v = w :: ws' := by
    cases v with
    | nil => exact absurd rfl hv.1
    | cons w ws' => exact ⟨w, ws', rfl⟩
  have hno : nameChar o = false := nameChar_of_opChar_false (hop.2 o (by simp))
  have hwv : nameChar w = true := hv.2 w (by simp)
  have hov : opChar w = false := opChar_of_nameChar_false hwv
  unfold matchReqLine
  rw [List.append_assoc, List.cons_append o os (w :: ws')]
  rw [takeWhile_append_all nameChar n _ hn.2,
      takeWhile_head_neg nameChar o _ hno,
      dropWhile_append_all nameChar n _ hn.2,
      dropWhile_head_neg nameChar o _ hno]
  rw [← List.cons_append o os (w :: ws')]
  rw [takeWhile_append_all opChar (o :: os) _ hop.2,
      takeWhile_head_neg opChar w _ hov,
      dropWhile_append_all opChar (o :: os) _ hop.2,
      dropWhile_head_neg opChar w _ hov,
      takeWhile_all nameChar (w :: ws') hv.2]
  have h1 : w :: ws' ≠ [] := by simp
  simp [hn.1, h1]

/-- Claim C6: the pinned-list parser skips blank lines and lines whose first
non-whitespace character is `#`; a line of the form `name operator version`
(nonempty runs over the respective character classes) parses to the pair
`name -> version`; a bare name parses to `name -> "latest"`; and the scenario
content parses to the expected two entries. -/
theorem c6_requirements_parsing :
    (∀ (pre post : List (List Char)) (line : List Char), skipReqLine line = true →
        parseReqLines (pre ++ line :: post) = parseReqLines (pre ++ post)) ∧
    (∀ n op v : String,
        (n.toList ≠ [] ∧ ∀ c ∈ n.toList, nameChar c = true) →
        (op.toList ≠ [] ∧ ∀ c ∈ op.toList, opChar c = true) →
        (v.toList ≠ [] ∧ ∀ c ∈ v.toList, nameChar c = true) →
        parseRequirementsTxt (n ++ op ++ v) = [(n, v)]) ∧
    (∀ n : String, (n.toList ≠ [] ∧ ∀ c ∈ n.toList, nameChar c = true) →
        parseRequirementsTxt n = [(n, "latest")]) ∧
    parseRequirementsTxt "requestslib==2.0.0\n# comment\nflask" =
      [("requestslib", "2.0.0"), ("flask", "latest")] := by
  refine ⟨fun pre post line h => ?_, fun n op v hn hop hv => ?_, fun n hn => ?_, by decide⟩
  · unfold parseReqLines
    rw [List.foldl_append, List.foldl_append]
    simp [reqStep, h]
  · have hchars : ∀ c ∈ n.toList ++ op.toList ++ v.toList,
        nameChar c = true ∨ opChar c = true := by
      intro c hc
      rcases List.mem_append.mp hc with hc1 | hc1
      · rcases List.mem_append.mp hc1 with hc2 | hc2
        · exact Or.inl (hn.2 c hc2)
        · exact Or.inr (hop.2 c hc2)
      · exact Or.inl (hv.2 c hc1)
    have hlist : (n ++ op ++ v).toList = n.toList ++ op.toList ++ v.toList := by
      simp
    have hnl : ∀ c ∈ n.toList ++ op.toList ++ v.toList, (c == '\n') = false := by
      intro c hc
      rcases hchars c hc with h1 | h1
      · exact nameChar_ne_newline h1
      · exact opChar_ne_newline h1
    have hws : ∀ c ∈ n.toList ++ op.toList ++ v.toList, c.isWhitespace = false := by
      intro c hc
      rcases hchars c hc with h1 | h1
      · exact nameChar_not_ws h1
      · exact opChar_not_ws h1
    unfold parseRequirementsTxt
    rw [hlist, splitLines_no_newline _ hnl]
    obtain ⟨c0, nb, hc0⟩ : ∃ c0 nb, n.toList = c0 :: nb := by
      cases hx : n.toList with
      | nil => exact absurd hx hn.1
      | cons a b => exact ⟨a, b, rfl⟩
    have hc0n : nameChar c0 = true := hn.2 c0 (by rw [hc0]; simp)
    have hskip : skipReqLine (n.toList ++ op.toList ++ v.toList) = false := by
      unfold skipReqLine
      rw [jsTrimL_all_not_ws _ hws, hc0]
      simp [nameChar_ne_hash hc0n]
    have hmatch := matchReqLine_concat n.toList op.toList v.toList hn hop hv
    unfold parseReqLines
    simp only [List.foldl_cons, List.foldl_nil, reqStep, hskip, Bool.false_eq_true,
      if_false, hmatch]
    simp [jsObjInsert]
  · have hnl : ∀ c ∈ n.toList, (c == '\n') = false :=
      fun c hc => nameChar_ne_newline (hn.2 c hc)
    have hws : ∀ c ∈ n.toList, c.isWhitespace = false :=
      fun c hc => nameChar_not_ws (hn.2 c hc)
    unfold parseRequirementsTxt
    rw [splitLines_no_newline _ hnl]
    obtain ⟨c0, nb, hc0⟩ : ∃ c0 nb, n.toList = c0 :: nb := by
      cases hx : n.toList with
      | nil => exact absurd hx hn.1
      | cons a b => exact ⟨a, b, rfl⟩
    have hc0n : nameChar c0 = true := hn.2 c0 (by rw [hc0]; simp)
    have hskip : skipReqLine n.toList = false := by
      unfold skipReqLine
      rw [jsTrimL_all_not_ws _ hws, hc0]
      simp [nameChar_ne_hash hc0n]
    have hdrop : n.toList.dropWhile nameChar = [] := by
      have := dropWhile_append_all nameChar n.toList [] hn.2
      simpa using this
    have hmatch : matchReqLine n.toList = none := by
      unfold matchReqLine
      rw [takeWhile_all nameChar n.toList hn.2, hdrop]
      simp [hc0]
    unfold parseReqLines
    simp only [List.foldl_cons, List.foldl_nil, reqStep, hskip, Bool.false_eq_true,
      if_false, hmatch]
    rw [jsTrimL_all_not_ws _ hws]
    simp [jsObjInsert, hc0]
    exact hn.1

theorem c6_requirements_parsing_witness :
    parseReqLines ([['a']] ++ [' '] :: []) = parseReqLines ([['a']] ++ []) ∧
    parseRequirementsTxt ("flask" ++ "==" ++ "2.0.0") = [("flask", "2.0.0")] ∧
    parseRequirementsTxt "requests" = [("requests", "latest")] :=
  ⟨c6_requirements_parsing.1 [['a']] [] [' '] (by decide),
   c6_requirements_parsing.2.1 "flask" "==" "2.0.0" (by decide) (by decide) (by decide),
   c6_requirements_parsing.2.2.1 "requests" (by decide)⟩

/-!
## Package-manifest parser (source: parsePackageJson, safeJsonParse)
-/

/-- JSON values, doubling as the JS runtime values the parser dispatches on. -/
inductive Json
  | null
  | bool (b : Bool)
  | num (n : Int)
  | str (s : String)
  | arr (elems : List Json)
  | obj (fields : List (String × Json))

/-- JS truthiness of a value. -/
def jsTruthy : Json → Bool
  | .null => false
  | .bool b => b
  | .num n => n != 0
  | .str s => !s.isEmpty
  | .arr _ => true
  | .obj _ => true

/-- Property access `j[k]`: object lookup (keys are unique after JSON
parsing), `undefined` (`none`) on every other value. -/
def getField : Json → String → Option Json
  | .obj fields, k => fields.lookup k
  | _, _ => none

/-- `x || {}`. -/
def jsOrEmptyObj : Option Json → Json
  | some j => if jsTruthy j then j else Json.obj []
  | none => Json.obj []

/-- Result of `parsePackageJson`: the `dependencies` and `devDependencies`
sections (each usually an object of name → declared-version pairs). -/
structure ParsedManifest where
  dependencies : Json
  devDependencies : Json

/-- The final `return` of `parsePackageJson`. -/
def extractManifest (j : Json) : ParsedManifest :=
  ⟨jsOrEmptyObj (getField j "dependencies"), jsOrEmptyObj (getField j "devDependencies")⟩

/-- `parsePackageJson`.  The argument models the JS runtime value `content`
(axios may deliver a pre-parsed object, hence the typeof dispatch); `jparse`
models the external `JSON.parse`, `none` standing for a parse exception
(which `safeJsonParse` converts to `null`, and the `!packageJson` guard also
rejects falsy parse results). -/
def parsePackageJson (jparse : String → Option Json) : Json → Except String ParsedManifest
  | .null => .error "Failed to parse package.json: Cannot read properties of null"
  | .obj fields => .ok (extractManifest (.obj fields))
  | .arr elems => .ok (extractManifest (.arr elems))
  | .str content =>
    if "object".toList.isPrefixOf (jsTrimL content.toList) then
      .error "Failed to parse package.json: Content is not valid JSON"
    else
      match jparse content with
      | some j =>
        if jsTruthy j then .ok (extractManifest j)
        else .error "Failed to parse package.json: Failed to parse package.json content"
      | none => .error "Failed to parse package.json: Failed to parse package.json content"
  | .num _ => .error "Failed to parse package.json: Invalid content type"
  | .bool _ => .error "Failed to parse package.json: Invalid content type"

/-- Claim C7: string content that is not valid structured data (JSON.parse
fails) makes `parsePackageJson` fail with a parse error — it never returns
any dependency set, empty or partial; parsable object content (not starting
with the literal "object") has its `dependencies` and `devDependencies`
sections extracted, and a missing (or falsy) section defaults to the empty
object while a present truthy section is passed through unchanged. -/
theorem c7_package_manifest_parsing (jparse : String → Option Json) (content : String) :
    (jparse content = none →
      (parsePackageJson jparse (Json.str content)).isOk = false) ∧
    (∀ fields, jparse content = some (Json.obj fields) →
      "object".toList.isPrefixOf (jsTrimL content.toList) = false →
      parsePackageJson jparse (Json.str content) = .ok (extractManifest (Json.obj fields))) ∧
    (∀ j, getField j "dependencies" = none → (extractManifest j).dependencies = Json.obj []) ∧
    (∀ j, getField j "devDependencies" = none →
      (extractManifest j).devDependencies = Json.obj []) ∧
    (∀ j d, getField j "dependencies" = some d → jsTruthy d = true →
      (extractManifest j).dependencies = d) := by
  refine ⟨fun h => ?_, fun fields h hpre => ?_, fun j h => ?_, fun j h => ?_,
    fun j d h ht => ?_⟩
  · simp only [parsePackageJson]
    split
    · rfl
    · rw [h]
      rfl
  · simp only [parsePackageJson]
    rw [if_neg (by rw [hpre]; simp), h]
    simp [jsTruthy]
  · simp [extractManifest, h, jsOrEmptyObj]
  · simp [extractManifest, h, jsOrEmptyObj]
  · simp [extractManifest, h, jsOrEmptyObj, ht]

theorem c7_package_manifest_parsing_witness :
    (parsePackageJson (fun _ => none) (Json.str "not json")).isOk = false ∧
    parsePackageJson (fun s => if s = "x" then some (Json.obj []) else none) (Json.str "x") =
      .ok (extractManifest (Json.obj [])) ∧
    (extractManifest (Json.obj [])).dependencies = Json.obj [] ∧
    (extractManifest (Json.obj [])).devDependencies = Json.obj [] ∧
    (extractManifest (Json.obj [("dependencies", Json.obj [("flask", Json.str "1.0")])])).dependencies =
      Json.obj [("flask", Json.str "1.0")] :=
  ⟨(c7_package_manifest_parsing (fun _ => none) "not json").1 rfl,
   (c7_package_manifest_parsing (fun s => if s = "x" then some (Json.obj []) else none) "x").2.1
     [] (by simp) (by decide),
   (c7_package_manifest_parsing (fun _ => none) "").2.2.1 (Json.obj []) rfl,
   (c7_package_manifest_parsing (fun _ => none) "").2.2.2.1 (Json.obj []) rfl,
   (c7_package_manifest_parsing (fun _ => none) "").2.2.2.2
     (Json.obj [("dependencies", Json.obj [("flask", Json.str "1.0")])])
     (Json.obj [("flask", Json.str "1.0")]) rfl rfl⟩

/-!
## Commit filtering (source: filterCommits)
-/

/-- The per-commit detail payload as far as filtering consults it
(`commit.details.files`, which may itself be absent). -/
structure CommitDetails where
  files : Option (List String)
deriving DecidableEq

/-- A commit as consulted by `filterCommits`: the full commit message and the
optional enrichment detail. -/
structure CommitEntry where
  message : String
  details : Option CommitDetails
deriving DecidableEq

structure CommitFilterOptions where
  file : Option String := none
  conflicts : Bool := false
  type : Option String := none

/-- The file-filter predicate: requires fetched detail with a `files` array,
and a case-insensitive substring match against any changed file name. -/
def fileMatches (pat : String) (c : CommitEntry) : Bool :=
  match c.details with
  | none => false
  | some d =>
    match d.files with
    | none => false
    | some fs => fs.any (fun f => hasSub (lowerStr f) (lowerStr pat))

/-- The conflicts-filter predicate: requires fetched detail, then matches
conflict keywords in the lower-cased message. -/
def conflictsMatches (c : CommitEntry) : Bool :=
  match c.details with
  | none => false
  | some _ =>
    hasSub (lowerStr c.message) "conflict" || hasSub (lowerStr c.message) "resolve" ||
    hasSub (lowerStr c.message) "merge" || hasSub (lowerStr c.message) "fix merge" ||
    hasSub (lowerStr c.message) "resolve conflict"

/-- The type-filter predicate: lower-cased message starts with the
lower-cased requested type. -/
def typeMatches (t : String) (c : CommitEntry) : Bool :=
  startsWithStr (lowerStr c.message) (lowerStr t)

/-- `filterCommits`: the three filters applied in sequence, each guarded by
JS truthiness of its option (an empty string disables a filter). -/
def filterCommits (commits : List CommitEntry) (opts : CommitFilterOptions) :
    List CommitEntry :=
  let f1 := match opts.file with
    | some pat => if pat.isEmpty then commits else commits.filter (fileMatches pat)
    | none => commits
  let f2 := if opts.conflicts then f1.filter conflictsMatches else f1
  match opts.type with
  | some t => if t.isEmpty then f2 else f2.filter (typeMatches t)
  | none => f2

/-- Claim C8: filtering is conjunctive — running the file, conflicts and
type filters together yields exactly the intersection (membership-wise) of
running each filter alone on the same list; and the file and conflicts
filters exclude every commit whose detail was not fetched. -/
theorem c8_filter_conjunctive (commits : List CommitEntry) (f t : String) :
    (∀ c, c ∈ filterCommits commits ⟨some f, true, some t⟩ ↔
      (c ∈ filterCommits commits ⟨some f, false, none⟩ ∧
       c ∈ filterCommits commits ⟨none, true, none⟩ ∧
       c ∈ filterCommits commits ⟨none, false, some t⟩)) ∧
    (f.isEmpty = false → ∀ c, c.details = none →
      c ∉ filterCommits commits ⟨some f, false, none⟩) ∧
    (∀ c, c.details = none → c ∉ filterCommits commits ⟨none, true, none⟩) := by
  refine ⟨fun c => ?_, fun hf c hc => ?_, fun c hc => ?_⟩
  · unfold filterCommits
    cases hf : f.isEmpty <;> cases ht : t.isEmpty <;>
      simp [hf, ht, List.mem_filter, Bool.and_eq_true] <;> tauto
  · unfold filterCommits
    simp [hf, List.mem_filter, fileMatches, hc]
  · unfold filterCommits
    simp [List.mem_filter, conflictsMatches, hc]

theorem c8_filter_conjunctive_witness :
    (⟨"merge fix", none⟩ : CommitEntry) ∉
      filterCommits [⟨"merge fix", none⟩] ⟨some "a", false, none⟩ ∧
    (⟨"merge fix", none⟩ : CommitEntry) ∉
      filterCommits [⟨"merge fix", none⟩] ⟨none, true, none⟩ :=
  ⟨(c8_filter_conjunctive [⟨"merge fix", none⟩] "a" "m").2.1 rfl ⟨"merge fix", none⟩ rfl,
   (c8_filter_conjunctive [⟨"merge fix", none⟩] "a" "m").2.2 ⟨"merge fix", none⟩ rfl⟩

/-!
## Remote environment and file fetch (source: fetchFileFromRepo)
-/

/-- A security advisory as projected by `fetchVulnerabilities`. -/
structure Advisory where
  id : Nat
  title : String
  severity : String
  vulnerable_versions : String
deriving DecidableEq

/-- Oracles for the remote endpoints: raw file content by path and branch,
the external `JSON.parse`, the registry latest dist-tag by package name, and
the advisory list by package name.  An `Except.error` models a rejected
request (or an unusable response shape). -/
structure Env where
  file : String → String → Except String String
  jparse : String → Option Json
  registry : String → Except String String
  advisory : String → Except String (List Advisory)

/-- Result of a file fetch together with the branches attempted, in order. -/
structure FetchAttempt where
  result : Except String String
  attempts : List String

/-- The inner catch of `fetchFileFromRepo`: on a failed first attempt, if
the requested branch is not already `master`, retry on `master`, wrapping a
double failure in the fixed not-found message; otherwise rethrow the
original error unchanged. -/
def fetchFallback (env : Env) (filePath branch e : String) : FetchAttempt :=
  if branch ≠ "master" then
    match env.file filePath "master" with
    | .ok c => ⟨.ok c, [branch, "master"]⟩
    | .error e2 =>
      ⟨.error ("File not found in main or master branch: " ++ e2), [branch, "master"]⟩
  else ⟨.error e, [branch]⟩

/-- `fetchFileFromRepo`: try the requested branch; on failure run the
fallback logic of the inner catch. -/
def fetchFileFromRepo (env : Env) (filePath : String) (branch : String) : FetchAttempt :=
  match env.file filePath branch with
  | .ok c => ⟨.ok c, [branch]⟩
  | .error e => fetchFallback env filePath branch e

theorem ffr_eq_ok (env : Env) (p b c : String) (h : env.file p b = .ok c) :
    fetchFileFromRepo env p b = ⟨.ok c, [b]⟩ := by
  unfold fetchFileFromRepo
  rw [h]

theorem ffr_eq_master_err (env : Env) (p e : String)
    (h : env.file p "master" = .error e) :
    fetchFileFromRepo env p "master" = ⟨.error e, ["master"]⟩ := by
  unfold fetchFileFromRepo
  rw [h]
  show fetchFallback env p "master" e = _
  unfold fetchFallback
  rw [if_neg (not_not_intro rfl)]

theorem ffr_eq_fallback_ok (env : Env) (p b e c2 : String) (hm : b ≠ "master")
    (h : env.file p b = .error e) (h2 : env.file p "master" = .ok c2) :
    fetchFileFromRepo env p b = ⟨.ok c2, [b, "master"]⟩ := by
  unfold fetchFileFromRepo
  rw [h]
  show fetchFallback env p b e = _
  unfold fetchFallback
  rw [if_pos hm, h2]

theorem ffr_eq_fallback_err (env : Env) (p b e e2 : String) (hm : b ≠ "master")
    (h : env.file p b = .error e) (h2 : env.file p "master" = .error e2) :
    fetchFileFromRepo env p b =
      ⟨.error ("File not found in main or master branch: " ++ e2), [b, "master"]⟩ := by
  unfold fetchFileFromRepo
  rw [h]
  show fetchFallback env p b e = _
  unfold fetchFallback
  rw [if_pos hm, h2]

/-- An environment in which every remote request fails. -/
def noFileEnv : Env :=
  ⟨fun _ _ => .error "Request failed with status code 404",
   fun _ => none,
   fun _ => .error "Request failed with status code 404",
   fun _ => .error "Request failed with status code 404"⟩

/-- Claim C5 (counterexample): with requested branch `master` and a file
absent everywhere, the client makes a single attempt — no fallback attempt
to an alternate branch happens — and fails with the raw underlying error,
not a not-found error naming what was tried; the claim requires a fallback
attempt on every failing fetch. -/
theorem c5_counterexample :
    (fetchFileFromRepo noFileEnv "package.json" "master").attempts = ["master"] ∧
    (fetchFileFromRepo noFileEnv "package.json" "master").result =
      .error "Request failed with status code 404" :=
  ⟨rfl, rfl⟩

/-- Claim C5 (amended): the requested branch is always attempted first, and
the fetch succeeds exactly when the file is available on the requested
branch or on `master`; when the requested branch is not `master` and its
attempt fails, exactly one fallback attempt on `master` follows, and a
double failure yields the fixed error message naming the main/master
fallback pair (regardless of the requested branch name); when the requested
branch is `master` itself, a single attempt is made and its failure is
rethrown unchanged. -/
theorem c5_file_fetch_amended (env : Env) (p b : String) :
    (fetchFileFromRepo env p b).attempts.head? = some b ∧
    (fetchFileFromRepo env p b).result.isOk =
      ((env.file p b).isOk || (env.file p "master").isOk) ∧
    (∀ c, env.file p b = .ok c → (fetchFileFromRepo env p b).result = .ok c) ∧
    (b ≠ "master" → (env.file p b).isOk = false →
      (fetchFileFromRepo env p b).attempts = [b, "master"] ∧
      ∀ e2, env.file p "master" = .error e2 →
        (fetchFileFromRepo env p b).result =
          .error ("File not found in main or master branch: " ++ e2)) ∧
    (b = "master" → ∀ e, env.file p b = .error e →
      (fetchFileFromRepo env p b).result = .error e ∧
      (fetchFileFromRepo env p b).attempts = [b]) := by
  by_cases hm : b = "master"
  · subst hm
    cases hb : env.file p "master" with
    | ok c =>
      rw [ffr_eq_ok env p "master" c hb]
      exact ⟨rfl, by simp [Except.isOk, Except.toBool],
        fun c' hc' => by cases hc'; rfl,
        fun hmm _ => absurd rfl hmm,
        fun _ e habs => absurd habs (by simp)⟩
    | error e =>
      rw [ffr_eq_master_err env p e hb]
      exact ⟨rfl, by simp [Except.isOk, Except.toBool],
        fun c' hc' => absurd hc' (by simp),
        fun hmm _ => absurd rfl hmm,
        fun _ e' he' => by cases he'; exact ⟨rfl, rfl⟩⟩
  · cases hb : env.file p b with
    | ok c =>
      rw [ffr_eq_ok env p b c hb]
      exact ⟨rfl, by simp [Except.isOk, Except.toBool],
        fun c' hc' => by cases hc'; rfl,
        fun _ habs => absurd habs (by simp [Except.isOk, Except.toBool]),
        fun hmm => absurd hmm hm⟩
    | error e =>
      cases hM : env.file p "master" with
      | ok c2 =>
        rw [ffr_eq_fallback_ok env p b e c2 hm hb hM]
        exact ⟨rfl, by simp [Except.isOk, Except.toBool],
          fun c' hc' => absurd hc' (by simp),
          fun _ _ => ⟨rfl, fun e2 he2 => absurd he2 (by simp)⟩,
          fun hmm => absurd hmm hm⟩
      | error e2 =>
        rw [ffr_eq_fallback_err env p b e e2 hm hb hM]
        exact ⟨rfl, by simp [Except.isOk, Except.toBool],
          fun c' hc' => absurd hc' (by simp),
          fun _ _ => ⟨rfl, fun e2' he2' => by cases he2'; rfl⟩,
          fun hmm => absurd hmm hm⟩

theorem c5_file_fetch_amended_witness :
    (fetchFileFromRepo noFileEnv "package.json" "main").attempts.head? = some "main" ∧
    (fetchFileFromRepo noFileEnv "package.json" "main").attempts = ["main", "master"] ∧
    (fetchFileFromRepo noFileEnv "package.json" "main").result =
      .error ("File not found in main or master branch: " ++
        "Request failed with status code 404") ∧
    (fetchFileFromRepo noFileEnv "package.json" "master").result =
      .error "Request failed with status code 404" :=
  ⟨(c5_file_fetch_amended noFileEnv "package.json" "main").1,
   ((c5_file_fetch_amended noFileEnv "package.json" "main").2.2.2.1 (by decide) rfl).1,
   ((c5_file_fetch_amended noFileEnv "package.json" "main").2.2.2.1 (by decide) rfl).2
     "Request failed with status code 404" rfl,
   ((c5_file_fetch_amended noFileEnv "package.json" "master").2.2.2.2 rfl
     "Request failed with status code 404" rfl).1⟩

/-!
## Version resolver and vulnerability checker
(source: fetchLatestVersions, fetchVulnerabilities)
-/

/-- One entry of the `fetchLatestVersions` results object. -/
structure VersionInfo where
  current : String
  latest : String
  outdated : Bool
  error : Option String
deriving DecidableEq

/-- One item of a version-resolution batch: on a successful registry lookup,
record the stripped declared version, the latest dist-tag and the outdated
flag; the per-item catch converts a failure into an error entry with
`latest = "unknown"` and `outdated = false`. -/
def resolveOne (env : Env) (pkg ver : String) : VersionInfo :=
  match env.registry pkg with
  | .ok latest =>
    { current := stripVersion ver, latest := latest,
      outdated := computeIsOutdated ver latest, error := none }
  | .error e =>
    { current := stripVersion ver, latest := "unknown", outdated := false, error := some e }

/-- One entry of the `fetchVulnerabilities` results object. -/
structure VulnInfo where
  vulnerabilities : Nat
  details : List Advisory
  error : Option String
deriving DecidableEq

/-- One item of a vulnerability-check batch: advisory count and details on
success, a zero-count error entry on failure. -/
def checkOne (env : Env) (pkg : String) : VulnInfo :=
  match env.advisory pkg with
  | .ok advisories =>
    { vulnerabilities := advisories.length, details := advisories, error := none }
  | .error e => { vulnerabilities := 0, details := [], error := some e }

/-- One batch body: each item of the slice is processed and assigned into
the shared results object (keys are manifest keys, hence unique, so the
within-batch assignment order is immaterial: insertion order is modelled). -/
def runBatch (f : String × String → α) (acc : List (String × α))
    (batch : List (String × String)) : List (String × α) :=
  batch.foldl (fun a p => jsObjInsert a p.1 (f p)) acc

/-- The `for (let i = 0; i < packages.length; i += batchSize)` loop with
`batchSize = 5`: process the slice `[i, i+5)` as one batch (awaited with
`Promise.all` before the next iteration), then continue with the rest.  The
slice of at most five items is spelled out as structural patterns so the
function computes by kernel reduction. -/
def batchedFetch (f : String × String → α) :
    List (String × String) → List (String × α) → List (String × α)
  | [], acc => acc
  | [a], acc => runBatch f acc [a]
  | [a, b], acc => runBatch f acc [a, b]
  | [a, b, c], acc => runBatch f acc [a, b, c]
  | [a, b, c, d], acc => runBatch f acc [a, b, c, d]
  | [a, b, c, d, e], acc => runBatch f acc [a, b, c, d, e]
  | a :: b :: c :: d :: e :: g :: rest, acc =>
    batchedFetch f (g :: rest) (runBatch f acc [a, b, c, d, e])

/-- `fetchLatestVersions`, as the batched per-item resolution. -/
def fetchLatestVersions (env : Env) (deps : List (String × String)) :
    List (String × VersionInfo) :=
  batchedFetch (fun p => resolveOne env p.1 p.2) deps []

/-- `fetchVulnerabilities`, as the batched per-item check. -/
def fetchVulnerabilities (env : Env) (deps : List (String × String)) :
    List (String × VulnInfo) :=
  batchedFetch (fun p => checkOne env p.1) deps []

/-- The consecutive groups of at most five items the batch loop processes. -/
def batches5 : List α → List (List α)
  | [] => []
  | [a] => [[a]]
  | [a, b] => [[a, b]]
  | [a, b, c] => [[a, b, c]]
  | [a, b, c, d] => [[a, b, c, d]]
  | [a, b, c, d, e] => [[a, b, c, d, e]]
  | a :: b :: c :: d :: e :: g :: rest => [a, b, c, d, e] :: batches5 (g :: rest)

theorem batches5_flatten : ∀ (l : List α), (batches5 l).flatten = l
  | [] => rfl
  | [_] => rfl
  | [_, _] => rfl
  | [_, _, _] => rfl
  | [_, _, _, _] => rfl
  | [_, _, _, _, _] => rfl
  | a :: b :: c :: d :: e :: g :: rest => by
    show ([a, b, c, d, e] :: batches5 (g :: rest)).flatten = _
    rw [List.flatten_cons, batches5_flatten (g :: rest)]
    rfl

theorem batches5_bound : ∀ (l : List α), ∀ g ∈ batches5 l, 0 < g.length ∧ g.length ≤ 5
  | [] => by simp [batches5]
  | [_] => by simp [batches5]
  | [_, _] => by simp [batches5]
  | [_, _, _] => by simp [batches5]
  | [_, _, _, _] => by simp [batches5]
  | [_, _, _, _, _] => by simp [batches5]
  | a :: b :: c :: d :: e :: g :: rest => by
    intro x hx
    have hx' : x ∈ [a, b, c, d, e] :: batches5 (g :: rest) := hx
    rcases List.mem_cons.mp hx' with h | h
    · subst h
      simp
    · exact batches5_bound (g :: rest) x h

theorem batchedFetch_eq_foldl (f : String × String → α) :
    ∀ (l : List (String × String)) (acc : List (String × α)),
    batchedFetch f l acc = (batches5 l).foldl (runBatch f) acc
  | [], _ => rfl
  | [_], _ => rfl
  | [_, _], _ => rfl
  | [_, _, _], _ => rfl
  | [_, _, _, _], _ => rfl
  | [_, _, _, _, _], _ => rfl
  | a :: b :: c :: d :: e :: g :: rest, acc => by
    have ih := batchedFetch_eq_foldl f (g :: rest) (runBatch f acc [a, b, c, d, e])
    show batchedFetch f (g :: rest) (runBatch f acc [a, b, c, d, e]) =
      ([a, b, c, d, e] :: batches5 (g :: rest)).foldl (runBatch f) acc
    rw [List.foldl_cons]
    exact ih

theorem foldl_flatten_eq (g : β → γ → β) :
    ∀ (L : List (List γ)) (a : β),
    L.flatten.foldl g a = L.foldl (fun x l => l.foldl g x) a
  | [], _ => rfl
  | l :: L, a => by
    rw [List.flatten_cons, List.foldl_append, List.foldl_cons]
    exact foldl_flatten_eq g L _

/-- Across the group structure the batch loop is the plain per-item fold. -/
theorem batchedFetch_eq_itemFold (f : String × String → α)
    (l : List (String × String)) (acc : List (String × α)) :
    batchedFetch f l acc = l.foldl (fun a p => jsObjInsert a p.1 (f p)) acc := by
  rw [batchedFetch_eq_foldl]
  conv_rhs => rw [← batches5_flatten l]
  rw [foldl_flatten_eq]
  rfl

theorem jsObjInsert_fresh (acc : List (String × α)) (k : String) (v : α)
    (h : ∀ q ∈ acc, q.1 ≠ k) : jsObjInsert acc k v = acc ++ [(k, v)] := by
  unfold jsObjInsert
  rw [if_neg ?hc]
  case hc =>
    simp only [List.any_eq_true, beq_iff_eq, not_exists]
    intro q hq
    exact h q hq.1 hq.2

/-- With unique keys the insert-fold is a plain map appended to the
accumulator. -/
theorem foldl_objInsert_eq_map (f : String × String → α) :
    ∀ (l : List (String × String)) (acc : List (String × α)),
    (∀ p ∈ l, ∀ q ∈ acc, q.1 ≠ p.1) → (l.map Prod.fst).Nodup →
    l.foldl (fun a p => jsObjInsert a p.1 (f p)) acc =
      acc ++ l.map (fun p => (p.1, f p)) := by
  intro l
  induction l with
  | nil => intro acc _ _; simp
  | cons p rest ih =>
    intro acc hfresh hnd
    rw [List.foldl_cons, jsObjInsert_fresh acc p.1 (f p) (fun q hq => hfresh p (by simp) q hq)]
    rw [ih (acc ++ [(p.1, f p)]) ?hf ?hn]
    · simp
    case hf =>
      intro r hr q hq
      rcases List.mem_append.mp hq with hq1 | hq1
      · exact hfresh r (by simp [hr]) q hq1
      · have : q = (p.1, f p) := by simpa using hq1
        subst this
        simp only [ne_eq]
        intro he
        rw [List.map_cons] at hnd
        have := (List.nodup_cons.mp hnd).1
        exact this (he ▸ List.mem_map_of_mem Prod.fst hr)
    case hn =>
      rw [List.map_cons] at hnd
      exact (List.nodup_cons.mp hnd).2

/-- With unique manifest keys the resolver output is exactly the per-item
map over the dependency list. -/
theorem fetchLatestVersions_eq_map (env : Env) (deps : List (String × String))
    (h : (deps.map Prod.fst).Nodup) :
    fetchLatestVersions env deps = deps.map (fun p => (p.1, resolveOne env p.1 p.2)) := by
  unfold fetchLatestVersions
  rw [batchedFetch_eq_itemFold, foldl_objInsert_eq_map _ deps [] (by simp) h]
  simp

theorem fetchVulnerabilities_eq_map (env : Env) (deps : List (String × String))
    (h : (deps.map Prod.fst).Nodup) :
    fetchVulnerabilities env deps = deps.map (fun p => (p.1, checkOne env p.1)) := by
  unfold fetchVulnerabilities
  rw [batchedFetch_eq_itemFold, foldl_objInsert_eq_map _ deps [] (by simp) h]
  simp

/-- Changing the registry behaviour at one package leaves all other
resolved entries unchanged. -/
theorem filter_map_resolve_congr (env env' : Env) (q : String)
    (hagree : ∀ r, r ≠ q → env.registry r = env'.registry r) :
    ∀ deps : List (String × String),
    (deps.map (fun p => (p.1, resolveOne env p.1 p.2))).filter (fun pr => pr.1 != q) =
      (deps.map (fun p => (p.1, resolveOne env' p.1 p.2))).filter (fun pr => pr.1 != q)
  | [] => rfl
  | p :: rest => by
    have ihr := filter_map_resolve_congr env env' q hagree rest
    by_cases hq : p.1 = q
    · simpa [hq] using ihr
    · have hres : resolveOne env p.1 p.2 = resolveOne env' p.1 p.2 := by
        unfold resolveOne
        rw [hagree p.1 hq]
      simp [hres, hq, ihr]

/-- Claim C3: for a manifest with N uniquely-named dependencies the resolver
returns exactly N entries, one per dependency and in order; each entry
either carries the registry's reported latest version with no error, or a
non-null error field (with latest "unknown" and outdated false); and a
change in the registry's behaviour on a single package never removes or
alters the sibling entries of the batch. -/
theorem c3_resolver_entries (env : Env) (deps : List (String × String))
    (h : (deps.map Prod.fst).Nodup) :
    (fetchLatestVersions env deps).length = deps.length ∧
    (fetchLatestVersions env deps).map Prod.fst = deps.map Prod.fst ∧
    (∀ pr ∈ fetchLatestVersions env deps,
      (pr.2.error = none ∧ env.registry pr.1 = .ok pr.2.latest) ∨
      (∃ e, pr.2.error = some e ∧ env.registry pr.1 = .error e ∧
        pr.2.latest = "unknown" ∧ pr.2.outdated = false)) ∧
    (∀ env' : Env, ∀ q : String,
      (∀ r, r ≠ q → env.registry r = env'.registry r) →
      (fetchLatestVersions env deps).filter (fun pr => pr.1 != q) =
        (fetchLatestVersions env' deps).filter (fun pr => pr.1 != q)) := by
  rw [fetchLatestVersions_eq_map env deps h]
  refine ⟨by simp, by simp, fun pr hpr => ?_, fun env' q hagree => ?_⟩
  · obtain ⟨p, hp, rfl⟩ := List.mem_map.mp hpr
    unfold resolveOne
    cases hr : env.registry p.1 with
    | ok latest => exact Or.inl ⟨rfl, rfl⟩
    | error e => exact Or.inr ⟨e, rfl, rfl, rfl, rfl⟩
  · rw [fetchLatestVersions_eq_map env' deps h]
    exact filter_map_resolve_congr env env' q hagree deps

/-- A registry in which exactly the `lodash` lookup fails. -/
def resolverEnv : Env :=
  ⟨fun _ _ => .error "Request failed with status code 404", fun _ => none,
   fun pkg => if pkg = "lodash" then .error "network error" else .ok "9.9.9",
   fun _ => .ok []⟩

/-- Like `resolverEnv` but the `lodash` lookup succeeds. -/
def resolverEnv2 : Env :=
  ⟨fun _ _ => .error "Request failed with status code 404", fun _ => none,
   fun pkg => if pkg = "lodash" then .ok "2.0.0" else .ok "9.9.9",
   fun _ => .ok []⟩

theorem c3_resolver_entries_witness :
    (fetchLatestVersions resolverEnv [("express", "^4.0.0"), ("lodash", "1.0.0")]).length = 2 ∧
    (fetchLatestVersions resolverEnv [("express", "^4.0.0"), ("lodash", "1.0.0")]).filter
        (fun pr => pr.1 != "lodash") =
      (fetchLatestVersions resolverEnv2 [("express", "^4.0.0"), ("lodash", "1.0.0")]).filter
        (fun pr => pr.1 != "lodash") :=
  ⟨((c3_resolver_entries resolverEnv [("express", "^4.0.0"), ("lodash", "1.0.0")]
      (by decide)).1).trans rfl,
   (c3_resolver_entries resolverEnv [("express", "^4.0.0"), ("lodash", "1.0.0")]
      (by decide)).2.2.2 resolverEnv2 "lodash"
      (fun r hr => by simp [resolverEnv, resolverEnv2, hr])⟩

/-- Claim C9: both batched operations process the dependency list in the
consecutive groups `batches5`, every group nonempty with at most five items,
the groups concatenating back to the full list; each group is one
`runBatch` application (the `Promise.all` of the slice, per-item error
handling included), and groups are combined by a left fold, i.e. a group
completes before the next one starts, so at most five requests are ever in
flight.  (Within-group concurrency itself is not observable in this pure
model; it is represented by the single `runBatch` step per group.) -/
theorem c9_batching (env : Env) (deps : List (String × String)) :
    (∀ g ∈ batches5 deps, 0 < g.length ∧ g.length ≤ 5) ∧
    (batches5 deps).flatten = deps ∧
    fetchLatestVersions env deps =
      (batches5 deps).foldl (runBatch (fun p => resolveOne env p.1 p.2)) [] ∧
    fetchVulnerabilities env deps =
      (batches5 deps).foldl (runBatch (fun p => checkOne env p.1)) [] :=
  ⟨batches5_bound deps, batches5_flatten deps,
   batchedFetch_eq_foldl _ deps [], batchedFetch_eq_foldl _ deps []⟩

theorem c9_batching_witness :
    (0 < ([("a", "1"), ("b", "2")] : List (String × String)).length ∧
      ([("a", "1"), ("b", "2")] : List (String × String)).length ≤ 5) ∧
    fetchLatestVersions resolverEnv [("a", "1"), ("b", "2")] =
      (batches5 [("a", "1"), ("b", "2")]).foldl
        (runBatch (fun p => resolveOne resolverEnv p.1 p.2)) [] :=
  ⟨(c9_batching resolverEnv [("a", "1"), ("b", "2")]).1 [("a", "1"), ("b", "2")] (by decide),
   (c9_batching resolverEnv [("a", "1"), ("b", "2")]).2.2.1⟩

/-!
## Audit pipeline (source: auditDependencies, suggestAlternatives)
-/

structure AltPackage where
  name : String
  description : String
deriving DecidableEq

/-- The hard-coded alternatives table of `suggestAlternatives`. -/
def alternativesTable : List (String × List AltPackage) :=
  [("moment", [⟨"date-fns", "Lightweight alternative to Moment.js"⟩,
               ⟨"dayjs", "Fast 2kB alternative to Moment.js with the same API"⟩]),
   ("lodash", [⟨"ramda", "Functional programming library"⟩,
               ⟨"lodash-es", "ES modules version of Lodash"⟩]),
   ("jquery", [⟨"cash-dom", "Lightweight jQuery alternative"⟩,
               ⟨"umbrella", "Tiny jQuery alternative"⟩]),
   ("express", [⟨"fastify", "Fast and low overhead web framework"⟩,
                ⟨"koa", "Next generation web framework by Express team"⟩]),
   ("request", [⟨"axios", "Promise based HTTP client"⟩,
                ⟨"got", "Human-friendly HTTP request library"⟩])]

/-- `suggestAlternatives`: keep the table rows keyed by a dependency name;
packages absent from the table are simply omitted. -/
def suggestAlternatives (deps : List (String × String)) : List (String × List AltPackage) :=
  deps.filterMap (fun p => (alternativesTable.lookup p.1).map (fun alts => (p.1, alts)))

/-- The options of `auditDependencies` after merging with the defaults.
`output` and `autoUpdate` only drive I/O (directory creation and the
simulated interactive update) and are carried for fidelity. -/
structure AuditOptions where
  type : String := "package.json"
  output : String := "./audit-reports"
  branch : String := "main"
  autoUpdate : Bool := false

/-- The JSON report written to `<output>/<owner>-<name>-audit.json`.
`vulnerabilities = none` models the "Not applicable" value used for
non-package.json manifests. -/
structure AuditReport where
  repository : String
  dependencyFile : String
  dependencies : List (String × String)
  outdatedPackages : List (String × VersionInfo)
  vulnerabilities : Option (List (String × VulnInfo))
  alternatives : List (String × List AltPackage)
deriving DecidableEq

/-- Entries of a dependencies section as consumed by the resolver: object
fields with their string values; a non-object section contributes no
entries (`Object.keys` of a primitive).  The model restricts manifests to
string-valued sections (anything else would make the JS `.replace` call
throw), mapping stray non-string values to the empty string. -/
def jsonDeps : Json → List (String × String)
  | .obj fields => fields.map (fun f => (f.1, match f.2 with | .str s => s | _ => ""))
  | _ => []

/-- The manifest fetch of `auditDependencies` with its alternative-location
catch: the file path finally used, with the content; for a type without
alternative locations a failed first fetch leaves the content undefined
(`none`) and execution continues to the parse stage, which then fails on
the unsupported type before consulting the content. -/
def fetchManifest (env : Env) (typ branch : String) : Except String (String × Option String) :=
  match (fetchFileFromRepo env typ branch).result with
  | .ok c => .ok (typ, some c)
  | .error _ =>
    if typ = "package.json" then
      match (fetchFileFromRepo env "frontend/package.json" branch).result with
      | .ok c => .ok ("frontend/package.json", some c)
      | .error _ =>
        match (fetchFileFromRepo env "backend/package.json" branch).result with
        | .ok c => .ok ("backend/package.json", some c)
        | .error _ => .error "Could not find package.json in repository. Tried: package.json, frontend/package.json, backend/package.json"
    else if typ = "requirements.txt" then
      match (fetchFileFromRepo env "requirements/requirements.txt" branch).result with
      | .ok c => .ok ("requirements/requirements.txt", some c)
      | .error _ =>
        match (fetchFileFromRepo env "requirements/base.txt" branch).result with
        | .ok c => .ok ("requirements/base.txt", some c)
        | .error _ => .error "Could not find requirements.txt in repository. Tried: requirements.txt, requirements/requirements.txt, requirements/base.txt"
    else .ok (typ, none)

/-- Both dependency sections as name → declared-version lists. -/
structure ParsedDeps where
  dependencies : List (String × String)
  devDependencies : List (String × String)
deriving DecidableEq

/-- The parse stage of `auditDependencies`: `package.json` content goes
through `parsePackageJson` and both sections are read off; a pinned list
goes through `parseRequirementsTxt` (which has no devDependencies); any
other manifest type throws.  The two supported types always reach this
stage with defined content, so the `getD` default is never consulted. -/
def parseManifest (env : Env) (typ : String) (contentOpt : Option String) :
    Except String ParsedDeps :=
  if typ = "package.json" then
    match parsePackageJson env.jparse (Json.str (contentOpt.getD "")) with
    | .ok pm => .ok ⟨jsonDeps pm.dependencies, jsonDeps pm.devDependencies⟩
    | .error e => .error e
  else if typ = "requirements.txt" then
    .ok ⟨parseRequirementsTxt (contentOpt.getD ""), []⟩
  else .error ("Unsupported dependency file type: " ++ typ)

/-- The enrichment-and-persist stage run after a successful parse with a
nonempty runtime dependency set: resolve latest versions, check
vulnerabilities (package.json manifests only), suggest alternatives, select
the outdated entries, and assemble the persisted report.  Only
`pd.dependencies` is consulted. -/
def auditCore (env : Env) (repo filePath : String) (opts : AuditOptions)
    (pd : ParsedDeps) : AuditReport :=
  { repository := repo
    dependencyFile := filePath
    dependencies := pd.dependencies
    outdatedPackages :=
      (fetchLatestVersions env pd.dependencies).filter (fun pr => pr.2.outdated)
    vulnerabilities :=
      if opts.type = "package.json" then some (fetchVulnerabilities env pd.dependencies)
      else none
    alternatives := suggestAlternatives pd.dependencies }

/-- The body of the try block of `auditDependencies`: fetch the manifest
(with alternative locations), parse it, return early without a report when
the runtime dependency set is empty, otherwise enrich and persist the
report.  An `Except.error` models an exception reaching the outer catch. -/
def auditInner (env : Env) (repo : String) (opts : AuditOptions) :
    Except String (Option AuditReport) :=
  match fetchManifest env opts.type opts.branch with
  | .error e => .error e
  | .ok (filePath, contentOpt) =>
    match parseManifest env opts.type contentOpt with
    | .error e => .error e
    | .ok pd =>
      if pd.dependencies.isEmpty then .ok none
      else .ok (some (auditCore env repo filePath opts pd))

/-- `auditDependencies`: the outer catch logs any pipeline error to the
console and swallows it, so the entry point always resolves; the payload is
the persisted report, `none` when no report file was written. -/
def auditDependencies (env : Env) (repo : String) (opts : AuditOptions) :
    Except String (Option AuditReport) :=
  match auditInner env repo opts with
  | .ok r => .ok r
  | .error _ => .ok none

theorem ffr_result_err (env : Env) (p b : String)
    (h : ∀ p' b', (env.file p' b').isOk = false) :
    ∃ e, (fetchFileFromRepo env p b).result = .error e := by
  cases hb : env.file p b with
  | ok c =>
    have hx := h p b
    rw [hb] at hx
    exact absurd hx (by simp [Except.isOk, Except.toBool])
  | error e =>
    by_cases hm : b = "master"
    · subst hm
      rw [ffr_eq_master_err env p e hb]
      exact ⟨e, rfl⟩
    · cases hM : env.file p "master" with
      | ok c2 =>
        have hx := h p "master"
        rw [hM] at hx
        exact absurd hx (by simp [Except.isOk, Except.toBool])
      | error e2 =>
        rw [ffr_eq_fallback_err env p b e e2 hm hb hM]
        exact ⟨_, rfl⟩

theorem fetchManifest_err_of_all_fail (env : Env) (typ branch : String)
    (h : ∀ p b, (env.file p b).isOk = false) :
    (typ = "package.json" ∨ typ = "requirements.txt") →
    ∃ e, fetchManifest env typ branch = .error e := by
  intro htyp
  obtain ⟨e1, he1⟩ := ffr_result_err env typ branch h
  rcases htyp with h1 | h1 <;> subst h1
  · obtain ⟨e2, he2⟩ := ffr_result_err env "frontend/package.json" branch h
    obtain ⟨e3, he3⟩ := ffr_result_err env "backend/package.json" branch h
    exact ⟨"Could not find package.json in repository. Tried: package.json, frontend/package.json, backend/package.json",
      by simp [fetchManifest, he1, he2, he3]⟩
  · obtain ⟨e2, he2⟩ := ffr_result_err env "requirements/requirements.txt" branch h
    obtain ⟨e3, he3⟩ := ffr_result_err env "requirements/base.txt" branch h
    exact ⟨"Could not find requirements.txt in repository. Tried: requirements.txt, requirements/requirements.txt, requirements/base.txt",
      by simp [fetchManifest, he1, he2, he3]⟩

theorem parsePackageJson_err_of_jparse_none (jparse : String → Option Json) (s : String)
    (h : jparse s = none) : (parsePackageJson jparse (Json.str s)).isOk = false := by
  simp only [parsePackageJson]
  split
  · rfl
  · rw [h]
    rfl

theorem auditDependencies_of_inner_err (env : Env) (repo : String) (opts : AuditOptions)
    (h : ∃ e, auditInner env repo opts = .error e) :
    auditDependencies env repo opts = .ok none := by
  obtain ⟨e, he⟩ := h
  unfold auditDependencies
  rw [he]

theorem auditInner_err_of_manifest_err (env : Env) (repo : String) (opts : AuditOptions)
    (e : String) (h : fetchManifest env opts.type opts.branch = .error e) :
    auditInner env repo opts = .error e := by
  unfold auditInner
  rw [h]

/-- Claim C2 (counterexample): with every file fetch failing, the manifest
cannot be fetched and the try block aborts with an error, but
`auditDependencies` swallows it in the outer catch and resolves normally
with no report: the error does not propagate to the caller as the claim
requires. -/
theorem c2_counterexample :
    auditInner noFileEnv "owner/repo" {} = .error
      "Could not find package.json in repository. Tried: package.json, frontend/package.json, backend/package.json" ∧
    auditDependencies noFileEnv "owner/repo" {} = .ok none :=
  ⟨rfl, rfl⟩

/-- Claim C2 (amended): when the manifest cannot be fetched at any location,
or its content cannot be parsed, the pipeline aborts and no report is
persisted, but the error is caught and logged at the pipeline boundary —
the entry point resolves normally with no report instead of propagating the
error to the caller; and whenever the manifest is fetched and parsed with a
nonempty runtime dependency set, a report is persisted regardless of how
the registry and advisory endpoints behave (per-item enrichment failures
alone never prevent persistence). -/
theorem c2_abort_persistence_amended (env : Env) (repo : String) (opts : AuditOptions) :
    ((∀ p b, (env.file p b).isOk = false) →
      auditDependencies env repo opts = .ok none) ∧
    (opts.type = "package.json" → (∀ s, env.jparse s = none) →
      auditDependencies env repo opts = .ok none) ∧
    (∀ e, auditInner env repo opts = .error e →
      auditDependencies env repo opts = .ok none) ∧
    (∀ filePath contentOpt pd (reg : String → Except String String)
        (adv : String → Except String (List Advisory)),
      fetchManifest env opts.type opts.branch = .ok (filePath, contentOpt) →
      parseManifest env opts.type contentOpt = .ok pd →
      pd.dependencies.isEmpty = false →
      ∃ rep, auditDependencies ⟨env.file, env.jparse, reg, adv⟩ repo opts =
        .ok (some rep)) := by
  refine ⟨fun h => ?_, fun htyp hjp => ?_, fun e he =>
    auditDependencies_of_inner_err env repo opts ⟨e, he⟩,
    fun filePath contentOpt pd reg adv hfm hpm hne => ?_⟩
  · by_cases h1 : opts.type = "package.json"
    · obtain ⟨e, he⟩ := fetchManifest_err_of_all_fail env opts.type opts.branch h (Or.inl h1)
      exact auditDependencies_of_inner_err _ _ _
        ⟨e, auditInner_err_of_manifest_err _ _ _ e he⟩
    · by_cases h2 : opts.type = "requirements.txt"
      · obtain ⟨e, he⟩ := fetchManifest_err_of_all_fail env opts.type opts.branch h (Or.inr h2)
        exact auditDependencies_of_inner_err _ _ _
          ⟨e, auditInner_err_of_manifest_err _ _ _ e he⟩
      · obtain ⟨e1, he1⟩ := ffr_result_err env opts.type opts.branch h
        have hfm : fetchManifest env opts.type opts.branch = .ok (opts.type, none) := by
          simp [fetchManifest, he1, h1, h2]
        have hpm : parseManifest env opts.type none =
            .error ("Unsupported dependency file type: " ++ opts.type) := by
          simp [parseManifest, h1, h2]
        have hin : auditInner env repo opts =
            .error ("Unsupported dependency file type: " ++ opts.type) := by
          simp [auditInner, hfm, hpm]
        exact auditDependencies_of_inner_err _ _ _ ⟨_, hin⟩
  · cases hfm : fetchManifest env opts.type opts.branch with
    | error e =>
      exact auditDependencies_of_inner_err _ _ _
        ⟨e, auditInner_err_of_manifest_err _ _ _ e hfm⟩
    | ok pr =>
      obtain ⟨fp, co⟩ := pr
      have hpp := parsePackageJson_err_of_jparse_none env.jparse (co.getD "") (hjp _)
      have hpm : ∃ e, parseManifest env opts.type co = .error e := by
        rw [htyp]
        unfold parseManifest
        rw [if_pos rfl]
        cases hp : parsePackageJson env.jparse (Json.str (co.getD "")) with
        | ok pm =>
          rw [hp] at hpp
          exact absurd hpp (by simp [Except.isOk, Except.toBool])
        | error e => exact ⟨e, rfl⟩
      obtain ⟨e, hpme⟩ := hpm
      have hin : auditInner env repo opts = .error e := by
        simp only [auditInner, hfm]
        rw [hpme]
      exact auditDependencies_of_inner_err _ _ _ ⟨e, hin⟩
  · refine ⟨auditCore ⟨env.file, env.jparse, reg, adv⟩ repo filePath opts pd, ?_⟩
    have hfm' : fetchManifest ⟨env.file, env.jparse, reg, adv⟩ opts.type opts.branch =
        .ok (filePath, contentOpt) := hfm
    have hpm' : parseManifest ⟨env.file, env.jparse, reg, adv⟩ opts.type contentOpt =
        .ok pd := hpm
    have hin : auditInner ⟨env.file, env.jparse, reg, adv⟩ repo opts =
        .ok (some (auditCore ⟨env.file, env.jparse, reg, adv⟩ repo filePath opts pd)) := by
      simp only [auditInner, hfm']
      rw [hpm']
      simp [hne]
    unfold auditDependencies
    rw [hin]

/-- An environment whose manifest fetch succeeds with content that fails to
parse as JSON. -/
def parseFailEnv : Env :=
  ⟨fun _ _ => .ok "not json", fun _ => none,
   fun _ => .error "network down", fun _ => .error "network down"⟩

/-- An environment with a well-formed one-dependency package.json manifest
(registry and advisory lookups fail). -/
def goodManifestEnv : Env :=
  ⟨fun _ _ => .ok "manifest",
   fun s => if s = "manifest" then
      some (Json.obj [("dependencies", Json.obj [("express", Json.str "4.0.0")])])
    else none,
   fun _ => .error "network down", fun _ => .error "network down"⟩

theorem c2_abort_persistence_amended_witness :
    auditDependencies noFileEnv "owner/repo" {} = .ok none ∧
    auditDependencies parseFailEnv "owner/repo" {} = .ok none ∧
    (∃ rep, auditDependencies ⟨goodManifestEnv.file, goodManifestEnv.jparse,
        fun _ => .error "rate limited", fun _ => .error "rate limited"⟩
      "owner/repo" {} = .ok (some rep)) :=
  ⟨(c2_abort_persistence_amended noFileEnv "owner/repo" {}).1 (fun _ _ => rfl),
   (c2_abort_persistence_amended parseFailEnv "owner/repo" {}).2.1 rfl (fun _ => rfl),
   (c2_abort_persistence_amended goodManifestEnv "owner/repo" {}).2.2.2
     "package.json" (some "manifest") ⟨[("express", "4.0.0")], []⟩
     (fun _ => .error "rate limited") (fun _ => .error "rate limited")
     rfl rfl rfl⟩

/-- Claim C10: the persisted report is a function of the runtime
`dependencies` section alone — two parse results with the same runtime
section produce identical reports, so `devDependencies` (which the parser
does produce) never contribute entries; every name in the outdated set and
the alternatives comes from the runtime section, and for package.json
audits the vulnerability section's names are exactly the runtime section's
names. -/
theorem c10_dev_dependencies_excluded (env : Env) (repo filePath : String)
    (opts : AuditOptions) (pd : ParsedDeps) :
    (∀ pd' : ParsedDeps, pd.dependencies = pd'.dependencies →
      auditCore env repo filePath opts pd = auditCore env repo filePath opts pd') ∧
    ((pd.dependencies.map Prod.fst).Nodup →
      (∀ name ∈ (auditCore env repo filePath opts pd).outdatedPackages.map Prod.fst,
        name ∈ pd.dependencies.map Prod.fst) ∧
      (opts.type = "package.json" →
        ∃ vl, (auditCore env repo filePath opts pd).vulnerabilities = some vl ∧
          vl.map Prod.fst = pd.dependencies.map Prod.fst)) ∧
    (∀ name ∈ (auditCore env repo filePath opts pd).alternatives.map Prod.fst,
      name ∈ pd.dependencies.map Prod.fst) ∧
    (∀ c pd0, parseManifest env "package.json" (some c) = .ok pd0 →
      ∃ pm, parsePackageJson env.jparse (Json.str c) = .ok pm ∧
        pd0.dependencies = jsonDeps pm.dependencies ∧
        pd0.devDependencies = jsonDeps pm.devDependencies) := by
  refine ⟨fun pd' h => ?_, fun hnd => ⟨fun name hname => ?_, fun htp => ?_⟩,
    fun name hname => ?_, fun c pd0 hp => ?_⟩
  · simp [auditCore, h]
  · simp only [auditCore] at hname
    rw [fetchLatestVersions_eq_map env pd.dependencies hnd] at hname
    obtain ⟨pr, hpr, rfl⟩ := List.mem_map.mp hname
    have hm := List.mem_filter.mp hpr
    obtain ⟨p, hp, rfl⟩ := List.mem_map.mp hm.1
    exact List.mem_map_of_mem Prod.fst hp
  · refine ⟨fetchVulnerabilities env pd.dependencies, by simp [auditCore, htp], ?_⟩
    rw [fetchVulnerabilities_eq_map env pd.dependencies hnd]
    simp
  · simp only [auditCore, suggestAlternatives] at hname
    obtain ⟨pr, hpr, rfl⟩ := List.mem_map.mp hname
    obtain ⟨p, hp, hsome⟩ := List.mem_filterMap.mp hpr
    obtain ⟨alts, _, hpr_eq⟩ := Option.map_eq_some'.mp hsome
    rw [← hpr_eq]
    exact List.mem_map_of_mem Prod.fst hp
  · have hp2 : (match parsePackageJson env.jparse (Json.str c) with
      | Except.ok pm => Except.ok (⟨jsonDeps pm.dependencies,
          jsonDeps pm.devDependencies⟩ : ParsedDeps)
      | Except.error e => Except.error e) = Except.ok pd0 := hp
    cases hpp : parsePackageJson env.jparse (Json.str c) with
    | error e =>
      rw [hpp] at hp2
      cases hp2
    | ok pm =>
      rw [hpp] at hp2
      have hp3 : Except.ok (⟨jsonDeps pm.dependencies,
          jsonDeps pm.devDependencies⟩ : ParsedDeps) = Except.ok pd0 := hp2
      injection hp3 with h3
      subst h3
      exact ⟨pm, rfl, rfl, rfl⟩

theorem c10_dev_dependencies_excluded_witness :
    auditCore goodManifestEnv "owner/repo" "package.json" {}
        ⟨[("express", "4.0.0")], [("jest", "29.0.0")]⟩ =
      auditCore goodManifestEnv "owner/repo" "package.json" {}
        ⟨[("express", "4.0.0")], []⟩ ∧
    (∃ vl, (auditCore goodManifestEnv "owner/repo" "package.json" {}
        ⟨[("express", "4.0.0")], [("jest", "29.0.0")]⟩).vulnerabilities = some vl ∧
      vl.map Prod.fst =
        ([("express", "4.0.0")] : List (String × String)).map Prod.fst) ∧
    (∃ pm, parsePackageJson goodManifestEnv.jparse (Json.str "manifest") = .ok pm ∧
      ([("express", "4.0.0")] : List (String × String)) = jsonDeps pm.dependencies ∧
      ([] : List (String × String)) = jsonDeps pm.devDependencies) :=
  ⟨(c10_dev_dependencies_excluded goodManifestEnv "owner/repo" "package.json" {}
      ⟨[("express", "4.0.0")], [("jest", "29.0.0")]⟩).1 ⟨[("express", "4.0.0")], []⟩ rfl,
   ((c10_dev_dependencies_excluded goodManifestEnv "owner/repo" "package.json" {}
      ⟨[("express", "4.0.0")], [("jest", "29.0.0")]⟩).2.1 (by decide)).2 rfl,
   (c10_dev_dependencies_excluded goodManifestEnv "owner/repo" "package.json" {}
      ⟨[("express", "4.0.0")], [("jest", "29.0.0")]⟩).2.2.2 "manifest"
      ⟨[("express", "4.0.0")], []⟩ rfl⟩

end GitBro
